import Mathlib

/-!
Shallow embedding of `nemo/collections/nlp/modules/crossentropy_loss.py`
(class `CrossEntropyLoss`), together with a model of the underlying
`torch.nn.CrossEntropyLoss` kernel that the module delegates to.

Tensors are modelled over the real numbers.  A rank-2 tensor of shape
`[N, C]` is a `Tensor2`: the size `C` of the class axis is kept as an
explicit field (a real tensor carries its full shape even when `N = 0`)
and the `N` rows are a list of lists.  Well-formedness (every row has
length `C`) is a separate predicate used as a hypothesis where needed.
A rank-3 tensor of shape `[B, T, C]` is a `Tensor3` in the same style.
-/

/-- Reduction mode of the underlying kernel (the `reduction` argument of
`torch.nn.CrossEntropyLoss`). -/
inductive Red where
  | mean
  | sum
  | none
deriving DecidableEq

/-- Result of the kernel: a scalar for `mean`/`sum`, a per-element tensor
for reduction `none`. -/
inductive LossOut where
  | scalar (v : ℝ)
  | tensor (vs : List ℝ)

/-- Errors raised by the underlying kernel at call time, in the order the
kernel checks them: batch-size mismatch between input and target, weight
vector length different from the number of classes, a target class index
out of range. -/
inductive CEErr where
  | targetSizeMismatch
  | weightSizeMismatch
  | targetOutOfRange
deriving DecidableEq

/-- Rank-2 real tensor of shape `[N, C]`: `C` is the size of the class
axis, `rows` the `N` rows. -/
structure Tensor2 where
  C : ℕ
  rows : List (List ℝ)

/-- Well-formedness of a rank-2 tensor: every row has length `C`. -/
abbrev T2wf (t : Tensor2) : Prop := ∀ r ∈ t.rows, r.length = t.C

/-- Rank-3 real tensor of shape `[B, T, C]`. -/
structure Tensor3 where
  C : ℕ
  batches : List (List (List ℝ))

/-- Well-formedness of a rank-3 tensor: every innermost row has length `C`. -/
abbrev T3wf (t : Tensor3) : Prop := ∀ b ∈ t.batches, ∀ r ∈ b, r.length = t.C

/-- `torch.flatten(x, start_dim=0, end_dim=-2)` on a rank-3 tensor: the
leading `B` and `T` axes collapse row-major into a single axis of size
`B*T`; the class axis is untouched. -/
def Tensor3.flattenTo2 (t : Tensor3) : Tensor2 := ⟨t.C, t.batches.flatten⟩

/-- `torch.argmax` over a single vector: index of the first occurrence of
the maximal entry (PyTorch returns the first maximal index). -/
noncomputable def argmaxIdx : List ℝ → ℕ
  | [] => 0
  | [_] => 0
  | x :: y :: t =>
      let j := argmaxIdx (y :: t)
      if (y :: t).getD j 0 > x then j + 1 else 0

/-- `torch.argmax(logits, dim=-1)` on a rank-2 tensor. -/
noncomputable def torchArgmax2 (t : Tensor2) : List ℕ := t.rows.map argmaxIdx

/-- `torch.argmax(logits, dim=-1)` on a rank-3 tensor. -/
noncomputable def torchArgmax3 (t : Tensor3) : List (List ℕ) :=
  t.batches.map (fun b => b.map argmaxIdx)

/-- Per-class rescaling factor: `weight[y]` when a weight vector is
configured, `1` otherwise. -/
noncomputable def wt (weight : Option (List ℝ)) (y : ℕ) : ℝ :=
  match weight with
  | Option.none => 1
  | Option.some w => w.getD y 0

/-- `log (sum of exponentials)` of a score vector. -/
noncomputable def logsumexp (x : List ℝ) : ℝ :=
  Real.log ((x.map Real.exp).sum)

/-- Weighted cross-entropy of one score vector `x` against one class
index `y`: `weight[y] * (logsumexp x - x[y])`. -/
noncomputable def perElemLoss (weight : Option (List ℝ)) (x : List ℝ) (y : ℕ) : ℝ :=
  wt weight y * (logsumexp x - x.getD y 0)

/-- Per-element losses of a rank-2 input against a 1-D target. -/
noncomputable def losses (weight : Option (List ℝ)) (input : Tensor2)
    (target : List ℕ) : List ℝ :=
  (input.rows.zip target).map (fun p => perElemLoss weight p.1 p.2)

/-- The kernel's reduction step on a rank-2 input: `none` keeps the
per-element losses, `sum` adds them, `mean` divides the weighted sum by
the sum of the weights of the targets (the length of the target when no
weight vector is configured). -/
noncomputable def applyReduction (weight : Option (List ℝ)) (red : Red)
    (input : Tensor2) (target : List ℕ) : LossOut :=
  match red with
  | Red.none => LossOut.tensor (losses weight input target)
  | Red.sum => LossOut.scalar (losses weight input target).sum
  | Red.mean =>
      LossOut.scalar ((losses weight input target).sum /
        ((target.map (wt weight)).sum))

/-- The kernel's weight-size check: a configured weight vector must have
one entry per class. -/
def weightSizeOk : Option (List ℝ) → ℕ → Bool
  | Option.none, _ => true
  | Option.some w, c => w.length == c

/-- Model of `torch.nn.CrossEntropyLoss(weight=weight, reduction=reduction)`:
the configuration the module builds once at construction. -/
structure NNCrossEntropyLoss where
  weight : Option (List ℝ)
  reduction : Red

/-- Calling the kernel on a rank-2 input `[N, C]` with a 1-D target of
class indices.  Checks mirror the kernel: target batch size must match,
the weight vector (if any) must have length `C`, every target index must
be below `C`; then the configured reduction is applied. -/
noncomputable def NNCrossEntropyLoss.call (c : NNCrossEntropyLoss)
    (input : Tensor2) (target : List ℕ) : Except CEErr LossOut :=
  if target.length = input.rows.length then
    if weightSizeOk c.weight input.C then
      if target.all (fun y => decide (y < input.C)) then
        Except.ok (applyReduction c.weight c.reduction input target)
      else Except.error CEErr.targetOutOfRange
    else Except.error CEErr.weightSizeMismatch
  else Except.error CEErr.targetSizeMismatch

/-- Per-element losses for a rank-3 input `[N, C1, d]` (class axis is
axis 1) against a target of shape `[N, d]`: for every batch `n` and
position `j`, the score vector is column `j` of the batch. -/
noncomputable def losses3 (weight : Option (List ℝ)) (input : Tensor3)
    (target : List (List ℕ)) : List ℝ :=
  ((input.batches.zip target).map (fun p =>
    (List.range input.C).map (fun j =>
      perElemLoss weight (p.1.map (fun row => row.getD j 0)) (p.2.getD j 0)))).flatten

/-- The kernel's reduction step on a rank-3 input. -/
noncomputable def applyReduction3 (weight : Option (List ℝ)) (red : Red)
    (input : Tensor3) (target : List (List ℕ)) : LossOut :=
  match red with
  | Red.none => LossOut.tensor (losses3 weight input target)
  | Red.sum => LossOut.scalar (losses3 weight input target).sum
  | Red.mean =>
      LossOut.scalar ((losses3 weight input target).sum /
        ((target.flatten.map (wt weight)).sum))

/-- Calling the kernel on a rank-3 input: `torch.nn.CrossEntropyLoss` on
an input of shape `[N, C1, d]` treats axis 1 as the class axis (so for a
`[B, T, C]` logits tensor handed over unflattened, the class count is
`T`, not `C`) and expects a target of shape `[N, d]`. -/
noncomputable def NNCrossEntropyLoss.call3 (c : NNCrossEntropyLoss)
    (input : Tensor3) (target : List (List ℕ)) : Except CEErr LossOut :=
  let nCls := (input.batches.headD []).length
  let d := input.C
  if target.length = input.batches.length ∧
      target.all (fun ti => decide (ti.length = d)) then
    if weightSizeOk c.weight nCls then
      if target.all (fun ti => ti.all (fun y => decide (y < nCls))) then
        Except.ok (applyReduction3 c.weight c.reduction input target)
      else Except.error CEErr.targetOutOfRange
    else Except.error CEErr.weightSizeMismatch
  else Except.error CEErr.targetSizeMismatch

/-- A loss mask as handed to `forward` for rank-2 logits: either already
boolean-typed, or numeric. -/
inductive Mask where
  | boolMask (m : List Bool)
  | floatMask (m : List ℝ)

/-- Mask dtype coercion performed by `forward`: a boolean mask is used
as-is, any other dtype is thresholded with `loss_mask > 0.5`. -/
noncomputable def coerceMask : Mask → List Bool
  | Mask.boolMask m => m
  | Mask.floatMask m => m.map (fun x => decide (x > 0.5))

/-- A loss mask for rank-3 logits (shape `[B, T]`). -/
inductive Mask3 where
  | boolMask (m : List (List Bool))
  | floatMask (m : List (List ℝ))

/-- Mask dtype coercion for a rank-3 call. -/
noncomputable def coerceMask3 : Mask3 → List (List Bool)
  | Mask3.boolMask m => m
  | Mask3.floatMask m => m.map (fun r => r.map (fun x => decide (x > 0.5)))

/-- Boolean mask indexing `xs[m]`: keep, in order, the entries of `xs`
whose mask bit is true. -/
def maskFilter {α : Type} (xs : List α) (m : List Bool) : List α :=
  ((xs.zip m).filter (fun p => p.2)).map (fun p => p.1)

/-- The NeMo module: it stores the kernel built at construction and the
configured logits rank (`self._criterion` and `self._logits_dim`). -/
structure CrossEntropyLoss where
  criterion : NNCrossEntropyLoss
  logits_dim : ℕ

/-- `CrossEntropyLoss.__init__(logits_ndim, weight, reduction)`: build the
kernel from the given weight and reduction and store the logits rank.
The tensor conversion and device placement of the weight are identity in
this model. -/
def CrossEntropyLoss.init (logits_ndim : ℕ) (weight : Option (List ℝ))
    (reduction : Red) : CrossEntropyLoss :=
  { criterion := { weight := weight, reduction := reduction },
    logits_dim := logits_ndim }

/-- `CrossEntropyLoss.forward(logits, labels, loss_mask)` for rank-2
logits.  `torch.flatten(logits, 0, -2)` and `torch.flatten(labels, 0, -1)`
are the identity at this rank; if a mask is given it is dtype-coerced,
flattened and used for boolean filtering of both tensors; if the
remaining labels are empty, the kernel is instead called on the original
logits against their own arg-max (degenerate fallback); otherwise the
kernel is called on the filtered tensors. -/
noncomputable def CrossEntropyLoss.forward (m : CrossEntropyLoss)
    (logits : Tensor2) (labels : List ℕ) (loss_mask : Option Mask) :
    Except CEErr LossOut :=
  let p : List (List ℝ) × List ℕ :=
    match loss_mask with
    | Option.none => (logits.rows, labels)
    | Option.some msk =>
        let mb := coerceMask msk
        (maskFilter logits.rows mb, maskFilter labels mb)
  if p.2.length = 0 then
    NNCrossEntropyLoss.call m.criterion logits (torchArgmax2 logits)
  else
    NNCrossEntropyLoss.call m.criterion ⟨logits.C, p.1⟩ p.2

/-- `CrossEntropyLoss.forward` instantiated at rank-3 logits `[B, T, C]`
with labels `[B, T]`: flattening collapses `B` and `T` row-major; the
degenerate fallback hands the original rank-3 tensor to the kernel. -/
noncomputable def CrossEntropyLoss.forward3 (m : CrossEntropyLoss)
    (logits : Tensor3) (labels : List (List ℕ)) (loss_mask : Option Mask3) :
    Except CEErr LossOut :=
  let p : List (List ℝ) × List ℕ :=
    match loss_mask with
    | Option.none => (logits.batches.flatten, labels.flatten)
    | Option.some msk =>
        let mb := (coerceMask3 msk).flatten
        (maskFilter logits.batches.flatten mb, maskFilter labels.flatten mb)
  if p.2.length = 0 then
    NNCrossEntropyLoss.call3 m.criterion logits (torchArgmax3 logits)
  else
    NNCrossEntropyLoss.call m.criterion ⟨logits.C, p.1⟩ p.2

/-- State-passing form of `forward`: the method reads but never assigns
any attribute of `self`, so the module that leaves the call is the very
module that entered it. -/
noncomputable def CrossEntropyLoss.forwardM (m : CrossEntropyLoss)
    (logits : Tensor2) (labels : List ℕ) (loss_mask : Option Mask) :
    CrossEntropyLoss × Except CEErr LossOut :=
  (m, CrossEntropyLoss.forward m logits labels loss_mask)

/-! ### Helper lemmas about boolean mask filtering -/

theorem maskFilter_nil_mask {α : Type} (xs : List α) : maskFilter xs [] = [] := by
  simp [maskFilter]

theorem maskFilter_cons {α : Type} (x : α) (xs : List α) (b : Bool) (m : List Bool) :
    maskFilter (x :: xs) (b :: m) =
      if b then x :: maskFilter xs m else maskFilter xs m := by
  cases b <;> simp [maskFilter, List.zip, List.filter]

theorem maskFilter_eq_nil_of_all_false {α : Type} (xs : List α) (m : List Bool)
    (h : ∀ b ∈ m, b = false) : maskFilter xs m = [] := by
  induction m generalizing xs with
  | nil => simp [maskFilter]
  | cons b bs ih =>
    cases xs with
    | nil => simp [maskFilter]
    | cons x xt =>
      have hb : b = false := h b (by simp)
      subst hb
      rw [maskFilter_cons]
      simp only [Bool.false_eq_true, if_false]
      exact ih xt (fun c hc => h c (by simp [hc]))

theorem maskFilter_length_count {α : Type} (xs : List α) (m : List Bool)
    (h : m.length = xs.length) :
    (maskFilter xs m).length = m.count true := by
  induction m generalizing xs with
  | nil => simp [maskFilter]
  | cons b bs ih =>
    cases xs with
    | nil => simp at h
    | cons x xt =>
      have h2 : bs.length = xt.length := by simpa using h
      rw [maskFilter_cons]
      cases b <;> simp [ih xt h2, List.count_cons]

theorem maskFilter_ne_nil {α : Type} (xs : List α) (m : List Bool)
    (hlen : m.length = xs.length) (hmem : true ∈ m) : maskFilter xs m ≠ [] := by
  intro hnil
  have hcount := maskFilter_length_count xs m hlen
  rw [hnil] at hcount
  have hpos : 0 < m.count true := List.count_pos_iff.mpr hmem
  simp at hcount
  omega

theorem maskFilter_length_eq {α β : Type} (xs : List α) (ys : List β) (m : List Bool)
    (h : xs.length = ys.length) :
    (maskFilter xs m).length = (maskFilter ys m).length := by
  induction m generalizing xs ys with
  | nil => simp [maskFilter]
  | cons b bs ih =>
    cases xs with
    | nil =>
      cases ys with
      | nil => rfl
      | cons y yt => simp at h
    | cons x xt =>
      cases ys with
      | nil => simp at h
      | cons y yt =>
        have h2 : xt.length = yt.length := by simpa using h
        rw [maskFilter_cons, maskFilter_cons]
        cases b <;> simp [ih xt yt h2]

theorem mem_maskFilter {α : Type} {a : α} {xs : List α} {m : List Bool}
    (h : a ∈ maskFilter xs m) : a ∈ xs := by
  induction m generalizing xs with
  | nil => simp [maskFilter] at h
  | cons b bs ih =>
    cases xs with
    | nil => simp [maskFilter] at h
    | cons x xt =>
      rw [maskFilter_cons] at h
      cases b with
      | false =>
        simp only [Bool.false_eq_true, if_false] at h
        exact List.mem_cons_of_mem _ (ih h)
      | true =>
        simp only [if_true] at h
        rcases List.mem_cons.mp h with h | h
        · exact h ▸ List.mem_cons_self x xt
        · exact List.mem_cons_of_mem _ (ih h)

/-! ### Helper lemmas about argmax and logsumexp -/

theorem argmaxIdx_lt (r : List ℝ) (h : r ≠ []) : argmaxIdx r < r.length := by
  induction r with
  | nil => exact absurd rfl h
  | cons x xs ih =>
    cases xs with
    | nil => simp [argmaxIdx]
    | cons y t =>
      simp only [argmaxIdx]
      split
      · exact Nat.succ_lt_succ (ih (by simp))
      · simp

theorem le_logsumexp {x : ℝ} {r : List ℝ} (h : x ∈ r) : x ≤ logsumexp r := by
  have hmem : Real.exp x ∈ r.map Real.exp := List.mem_map_of_mem _ h
  have hle : Real.exp x ≤ (r.map Real.exp).sum :=
    List.single_le_sum (fun y hy => by
      rcases List.mem_map.mp hy with ⟨z, _, rfl⟩
      exact (Real.exp_pos z).le) _ hmem
  calc x = Real.log (Real.exp x) := (Real.log_exp x).symm
    _ ≤ logsumexp r := Real.log_le_log (Real.exp_pos x) hle

theorem getD_argmax_mem (r : List ℝ) (h : r ≠ []) : r.getD (argmaxIdx r) 0 ∈ r := by
  have hlt := argmaxIdx_lt r h
  rw [List.getD_eq_getElem r 0 hlt]
  exact List.getElem_mem hlt

theorem perElemLoss_self_nonneg (r : List ℝ) (h : r ≠ []) :
    0 ≤ perElemLoss Option.none r (argmaxIdx r) := by
  have hle : r.getD (argmaxIdx r) 0 ≤ logsumexp r := le_logsumexp (getD_argmax_mem r h)
  simpa [perElemLoss, wt] using sub_nonneg.mpr hle

theorem zip_map_self {α β : Type} (f : α → β) (l : List α) :
    l.zip (l.map f) = l.map (fun a => (a, f a)) := by
  induction l with
  | nil => rfl
  | cons x xs ih => simp [ih]

/-! ### Branch lemmas for the forward pass -/

theorem forward_noMask_nonempty (m : CrossEntropyLoss) (logits : Tensor2)
    (labels : List ℕ) (h : labels ≠ []) :
    CrossEntropyLoss.forward m logits labels Option.none =
      NNCrossEntropyLoss.call m.criterion logits labels := by
  simp [CrossEntropyLoss.forward, List.length_eq_zero, h]

theorem forward_noMask_empty (m : CrossEntropyLoss) (logits : Tensor2) :
    CrossEntropyLoss.forward m logits [] Option.none =
      NNCrossEntropyLoss.call m.criterion logits (torchArgmax2 logits) := by
  simp [CrossEntropyLoss.forward]

theorem forward_mask_filterEmpty (m : CrossEntropyLoss) (logits : Tensor2)
    (labels : List ℕ) (msk : Mask)
    (h : maskFilter labels (coerceMask msk) = []) :
    CrossEntropyLoss.forward m logits labels (Option.some msk) =
      NNCrossEntropyLoss.call m.criterion logits (torchArgmax2 logits) := by
  simp [CrossEntropyLoss.forward, h]

theorem forward_mask_filterNonempty (m : CrossEntropyLoss) (logits : Tensor2)
    (labels : List ℕ) (msk : Mask)
    (h : maskFilter labels (coerceMask msk) ≠ []) :
    CrossEntropyLoss.forward m logits labels (Option.some msk) =
      NNCrossEntropyLoss.call m.criterion
        ⟨logits.C, maskFilter logits.rows (coerceMask msk)⟩
        (maskFilter labels (coerceMask msk)) := by
  simp [CrossEntropyLoss.forward, List.length_eq_zero, h]

theorem call_ok (c : NNCrossEntropyLoss) (input : Tensor2) (target : List ℕ)
    (h1 : target.length = input.rows.length)
    (h2 : weightSizeOk c.weight input.C = true)
    (h3 : ∀ y ∈ target, y < input.C) :
    NNCrossEntropyLoss.call c input target =
      Except.ok (applyReduction c.weight c.reduction input target) := by
  have h3b : target.all (fun y => decide (y < input.C)) = true := by
    rw [List.all_eq_true]
    intro y hy
    exact decide_eq_true (h3 y hy)
  simp [NNCrossEntropyLoss.call, h1, h2, h3b]

theorem call_fallback_ok (c : NNCrossEntropyLoss) (logits : Tensor2)
    (hwf : T2wf logits) (hC : 0 < logits.C)
    (h2 : weightSizeOk c.weight logits.C = true) :
    NNCrossEntropyLoss.call c logits (torchArgmax2 logits) =
      Except.ok (applyReduction c.weight c.reduction logits (torchArgmax2 logits)) := by
  apply call_ok
  · simp [torchArgmax2]
  · exact h2
  · intro y hy
    rcases List.mem_map.mp hy with ⟨r, hr, rfl⟩
    have hlen := hwf r hr
    have hne : r ≠ [] := by
      intro hnil
      rw [hnil] at hlen
      simp at hlen
      omega
    calc argmaxIdx r < r.length := argmaxIdx_lt r hne
      _ = logits.C := hlen

theorem fallback_losses_nonneg (logits : Tensor2)
    (hwf : T2wf logits) (hC : 0 < logits.C) :
    0 ≤ (losses Option.none logits (torchArgmax2 logits)).sum := by
  apply List.sum_nonneg
  intro v hv
  simp only [losses, torchArgmax2, zip_map_self, List.map_map] at hv
  rcases List.mem_map.mp hv with ⟨r, hr, rfl⟩
  have hlen := hwf r hr
  have hne : r ≠ [] := by
    intro hnil
    rw [hnil] at hlen
    simp at hlen
    omega
  exact perElemLoss_self_nonneg r hne

/-! ### Claim theorems -/

/-- C1 (amended): for a non-empty well-formed logits tensor, matching
labels and an all-false mask, forward returns the kernel applied to the
original logits against their own arg-max along the class axis, and with
reduction mean or sum and no class weighting this returned value is a
nonnegative real.  (The original claim that the value is exactly 0 is
false: the self-arg-max cross-entropy is `logsumexp x - max x`, which is
positive whenever the scores are not infinitely separated; see the
counterexample theorem.) -/
theorem allFalseMask_fallback_selfArgmax_nonneg (n : ℕ) (red : Red)
    (logits : Tensor2) (labels : List ℕ) (mask : List Bool)
    (hred : red = Red.mean ∨ red = Red.sum)
    (hmask : ∀ b ∈ mask, b = false)
    (hwf : T2wf logits) (hne : logits.rows ≠ []) (hC : 0 < logits.C) :
    CrossEntropyLoss.forward (CrossEntropyLoss.init n Option.none red) logits labels
        (Option.some (Mask.boolMask mask)) =
      NNCrossEntropyLoss.call { weight := Option.none, reduction := red } logits
        (torchArgmax2 logits) ∧
    ∃ v : ℝ,
      CrossEntropyLoss.forward (CrossEntropyLoss.init n Option.none red) logits labels
          (Option.some (Mask.boolMask mask)) = Except.ok (LossOut.scalar v) ∧
      0 ≤ v := by
  have hfall : CrossEntropyLoss.forward (CrossEntropyLoss.init n Option.none red)
      logits labels (Option.some (Mask.boolMask mask)) =
      NNCrossEntropyLoss.call { weight := Option.none, reduction := red } logits
        (torchArgmax2 logits) :=
    forward_mask_filterEmpty _ _ _ _ (maskFilter_eq_nil_of_all_false labels mask hmask)
  refine ⟨hfall, ?_⟩
  have hok := call_fallback_ok { weight := Option.none, reduction := red } logits hwf hC rfl
  have hS : 0 ≤ (losses Option.none logits (torchArgmax2 logits)).sum :=
    fallback_losses_nonneg logits hwf hC
  rcases hred with hred | hred <;> subst hred
  · refine ⟨(losses Option.none logits (torchArgmax2 logits)).sum /
      ((torchArgmax2 logits).map (wt Option.none)).sum, ?_, ?_⟩
    · rw [hfall, hok]
      rfl
    · have hD : 0 ≤ ((torchArgmax2 logits).map (wt Option.none)).sum := by
        apply List.sum_nonneg
        intro x hx
        rcases List.mem_map.mp hx with ⟨y, _, rfl⟩
        simp [wt]
      exact div_nonneg hS hD
  · refine ⟨(losses Option.none logits (torchArgmax2 logits)).sum, ?_, hS⟩
    rw [hfall, hok]
    rfl

/-- C1 counterexample: at logits `[[0, 0]]`, labels `[0]`, an all-false
boolean mask, reduction mean and no weighting, the returned loss is
`log 2`, not `0`. -/
theorem allFalseMask_loss_ne_zero :
    CrossEntropyLoss.forward (CrossEntropyLoss.init 2 Option.none Red.mean)
        ⟨2, [[0, 0]]⟩ [0] (Option.some (Mask.boolMask [false])) ≠
      Except.ok (LossOut.scalar 0) := by
  have hlog : Real.log 2 ≠ 0 := ne_of_gt (Real.log_pos one_lt_two)
  have hval : CrossEntropyLoss.forward (CrossEntropyLoss.init 2 Option.none Red.mean)
      ⟨2, [[0, 0]]⟩ [0] (Option.some (Mask.boolMask [false])) =
      Except.ok (LossOut.scalar (Real.log 2)) := by
    have harg : argmaxIdx [(0 : ℝ), 0] = 0 := by
      simp only [argmaxIdx, List.getD]
      norm_num
    rw [forward_mask_filterEmpty (CrossEntropyLoss.init 2 Option.none Red.mean)
          ⟨2, [[0, 0]]⟩ [0] (Mask.boolMask [false]) rfl]
    have hcrit : (CrossEntropyLoss.init 2 Option.none Red.mean).criterion =
        { weight := Option.none, reduction := Red.mean } := rfl
    rw [hcrit, call_fallback_ok { weight := Option.none, reduction := Red.mean }
          ⟨2, [[0, 0]]⟩ (by decide) (by decide) rfl]
    congr 1
    simp only [applyReduction, losses, torchArgmax2, harg, perElemLoss, wt, logsumexp,
      List.map_cons, List.map_nil, List.zip_cons_cons, List.zip_nil_right, List.getD,
      List.sum_cons, List.sum_nil]
    norm_num [Real.exp_zero]
  rw [hval]
  simp only [ne_eq, Except.ok.injEq, LossOut.scalar.injEq]
  exact hlog

/-- Witness for the amended C1 theorem at logits `[[0, 0]]`, labels `[0]`
and mask `[false]`. -/
theorem allFalseMask_fallback_selfArgmax_nonneg_app :
    CrossEntropyLoss.forward (CrossEntropyLoss.init 2 Option.none Red.mean)
        ⟨2, [[0, 0]]⟩ [0] (Option.some (Mask.boolMask [false])) =
      NNCrossEntropyLoss.call { weight := Option.none, reduction := Red.mean }
        ⟨2, [[0, 0]]⟩ (torchArgmax2 ⟨2, [[0, 0]]⟩) ∧
    ∃ v : ℝ,
      CrossEntropyLoss.forward (CrossEntropyLoss.init 2 Option.none Red.mean)
          ⟨2, [[0, 0]]⟩ [0] (Option.some (Mask.boolMask [false])) =
        Except.ok (LossOut.scalar v) ∧
      0 ≤ v :=
  allFalseMask_fallback_selfArgmax_nonneg 2 Red.mean ⟨2, [[0, 0]]⟩ [0] [false]
    (Or.inl rfl) (by decide) (by decide) (by simp) (by decide)

/-- C2: whenever the masked selection is empty (also in the degenerate
no-mask call on empty labels), forward raises no error: it skips the
kernel call on the empty filtered tensors and returns the degenerate
fallback, the kernel applied to the original logits against their own
arg-max, which succeeds. -/
theorem emptySelection_no_error (m : CrossEntropyLoss) (logits : Tensor2)
    (labels : List ℕ) (mk : Option Mask)
    (hsel : match mk with
      | Option.none => labels = []
      | Option.some msk => maskFilter labels (coerceMask msk) = [])
    (hwf : T2wf logits) (hC : 0 < logits.C)
    (hw : weightSizeOk m.criterion.weight logits.C = true) :
    CrossEntropyLoss.forward m logits labels mk =
      NNCrossEntropyLoss.call m.criterion logits (torchArgmax2 logits) ∧
    ∃ out, CrossEntropyLoss.forward m logits labels mk = Except.ok out := by
  have hfall : CrossEntropyLoss.forward m logits labels mk =
      NNCrossEntropyLoss.call m.criterion logits (torchArgmax2 logits) := by
    cases mk with
    | none =>
      have hlab : labels = [] := hsel
      subst hlab
      exact forward_noMask_empty m logits
    | some msk => exact forward_mask_filterEmpty m logits labels msk hsel
  refine ⟨hfall, ?_⟩
  rw [hfall, call_fallback_ok m.criterion logits hwf hC hw]
  exact ⟨_, rfl⟩

/-- Witness for C2 at logits `[[0, 0]]`, labels `[0]`, mask `[false]`. -/
theorem emptySelection_no_error_app :
    CrossEntropyLoss.forward (CrossEntropyLoss.init 2 Option.none Red.mean)
        ⟨2, [[0, 0]]⟩ [0] (Option.some (Mask.boolMask [false])) =
      NNCrossEntropyLoss.call
        (CrossEntropyLoss.init 2 Option.none Red.mean).criterion
        ⟨2, [[0, 0]]⟩ (torchArgmax2 ⟨2, [[0, 0]]⟩) ∧
    ∃ out, CrossEntropyLoss.forward (CrossEntropyLoss.init 2 Option.none Red.mean)
        ⟨2, [[0, 0]]⟩ [0] (Option.some (Mask.boolMask [false])) = Except.ok out :=
  emptySelection_no_error (CrossEntropyLoss.init 2 Option.none Red.mean)
    ⟨2, [[0, 0]]⟩ [0] (Option.some (Mask.boolMask [false]))
    rfl (by decide) (by decide) rfl

/-- C3: for a boolean mask of the labels' length with at least one true
entry, the masked forward equals the unmasked forward on just the
mask-selected logits rows and label entries, kept in their original
order. -/
theorem mask_filters_support (m : CrossEntropyLoss) (logits : Tensor2)
    (labels : List ℕ) (mask : List Bool)
    (hmem : true ∈ mask) (hlen : mask.length = labels.length) :
    CrossEntropyLoss.forward m logits labels (Option.some (Mask.boolMask mask)) =
      CrossEntropyLoss.forward m ⟨logits.C, maskFilter logits.rows mask⟩
        (maskFilter labels mask) Option.none := by
  have hne : maskFilter labels mask ≠ [] := maskFilter_ne_nil labels mask hlen hmem
  rw [forward_mask_filterNonempty m logits labels (Mask.boolMask mask) hne]
  rw [forward_noMask_nonempty _ _ _ hne]
  rfl

/-- Witness for C3 at logits `[[2, 0], [0, 2]]`, labels `[0, 1]`, mask
`[true, false]`. -/
theorem mask_filters_support_app :
    CrossEntropyLoss.forward (CrossEntropyLoss.init 2 Option.none Red.mean)
        ⟨2, [[2, 0], [0, 2]]⟩ [0, 1] (Option.some (Mask.boolMask [true, false])) =
      CrossEntropyLoss.forward (CrossEntropyLoss.init 2 Option.none Red.mean)
        ⟨2, maskFilter [[2, 0], [0, 2]] [true, false]⟩
        (maskFilter [0, 1] [true, false]) Option.none :=
  mask_filters_support (CrossEntropyLoss.init 2 Option.none Red.mean)
    ⟨2, [[2, 0], [0, 2]]⟩ [0, 1] [true, false] (by decide) (by decide)

/-- C5: a numeric mask acts exactly as the boolean mask that is true
where the numeric entry is strictly greater than 0.5, and a boolean mask
is used as-is. -/
theorem numericMask_threshold_eq (m : CrossEntropyLoss) (logits : Tensor2)
    (labels : List ℕ) (v : List ℝ) :
    CrossEntropyLoss.forward m logits labels (Option.some (Mask.floatMask v)) =
      CrossEntropyLoss.forward m logits labels
        (Option.some (Mask.boolMask (v.map (fun x => decide (x > 0.5))))) := rfl

/-- C8: forward leaves the module's configuration untouched: the module
coming out of the state-passing call is the module that went in (same
kernel weight, same reduction, same stored logits rank), and a second
call after a first one returns exactly what it returns on the original
module. -/
theorem forward_preserves_config (m : CrossEntropyLoss)
    (logits : Tensor2) (labels : List ℕ) (mk : Option Mask)
    (logits2 : Tensor2) (labels2 : List ℕ) (mk2 : Option Mask) :
    (CrossEntropyLoss.forwardM m logits labels mk).1.criterion.weight =
        m.criterion.weight ∧
    (CrossEntropyLoss.forwardM m logits labels mk).1.criterion.reduction =
        m.criterion.reduction ∧
    (CrossEntropyLoss.forwardM m logits labels mk).1.logits_dim = m.logits_dim ∧
    CrossEntropyLoss.forwardM (CrossEntropyLoss.forwardM m logits labels mk).1
        logits2 labels2 mk2 =
      CrossEntropyLoss.forwardM m logits2 labels2 mk2 :=
  ⟨rfl, rfl, rfl, rfl⟩

/-- C9: under an all-false mask the labels' contents cannot influence the
result: two calls with the same logits and the same all-false mask but
different labels of the same length return identical values. -/
theorem allFalseMask_labels_independent (m : CrossEntropyLoss) (logits : Tensor2)
    (labels1 labels2 : List ℕ) (mask : List Bool)
    (hmask : ∀ b ∈ mask, b = false) (hlen : labels1.length = labels2.length) :
    CrossEntropyLoss.forward m logits labels1 (Option.some (Mask.boolMask mask)) =
      CrossEntropyLoss.forward m logits labels2 (Option.some (Mask.boolMask mask)) := by
  rw [forward_mask_filterEmpty m logits labels1 (Mask.boolMask mask)
        (maskFilter_eq_nil_of_all_false labels1 mask hmask),
      forward_mask_filterEmpty m logits labels2 (Mask.boolMask mask)
        (maskFilter_eq_nil_of_all_false labels2 mask hmask)]

/-- Witness for C9 at labels `[0]` versus `[1]` under mask `[false]`. -/
theorem allFalseMask_labels_independent_app :
    CrossEntropyLoss.forward (CrossEntropyLoss.init 2 Option.none Red.mean)
        ⟨2, [[0, 0]]⟩ [0] (Option.some (Mask.boolMask [false])) =
      CrossEntropyLoss.forward (CrossEntropyLoss.init 2 Option.none Red.mean)
        ⟨2, [[0, 0]]⟩ [1] (Option.some (Mask.boolMask [false])) :=
  allFalseMask_labels_independent (CrossEntropyLoss.init 2 Option.none Red.mean)
    ⟨2, [[0, 0]]⟩ [0] [1] [false] (by decide) (by decide)

theorem coerceMask_bool (m : List Bool) : coerceMask (Mask.boolMask m) = m := rfl

theorem forward3_noMask_nonempty (m : CrossEntropyLoss) (logits : Tensor3)
    (labels : List (List ℕ)) (h : labels.flatten ≠ []) :
    CrossEntropyLoss.forward3 m logits labels Option.none =
      NNCrossEntropyLoss.call m.criterion ⟨logits.C, logits.batches.flatten⟩
        labels.flatten := by
  have hlen : ¬ labels.flatten.length = 0 := fun hc => h (List.length_eq_zero.mp hc)
  simp only [CrossEntropyLoss.forward3]
  exact if_neg hlen

/-- C4: at rank 3 with no mask, forward equals the rank-2 forward on the
row-major pre-flattened logits `[B*T, C]` and labels `[B*T]`, for shapes
with at least one labelled position: flattening does not alter the
arithmetic result. -/
theorem rank3_flatten_eq (w : Option (List ℝ)) (red : Red)
    (logits : Tensor3) (labels : List (List ℕ))
    (h : labels.flatten ≠ []) :
    CrossEntropyLoss.forward3 (CrossEntropyLoss.init 3 w red) logits labels
        Option.none =
      CrossEntropyLoss.forward (CrossEntropyLoss.init 2 w red)
        (Tensor3.flattenTo2 logits) labels.flatten Option.none := by
  rw [forward3_noMask_nonempty _ _ _ h, forward_noMask_nonempty _ _ _ h]
  rfl

/-- Witness for C4 at B = T = C = 1. -/
theorem rank3_flatten_eq_app :
    CrossEntropyLoss.forward3 (CrossEntropyLoss.init 3 Option.none Red.mean)
        ⟨1, [[[0]]]⟩ [[0]] Option.none =
      CrossEntropyLoss.forward (CrossEntropyLoss.init 2 Option.none Red.mean)
        (Tensor3.flattenTo2 ⟨1, [[[0]]]⟩) [[0]].flatten Option.none :=
  rank3_flatten_eq Option.none Red.mean ⟨1, [[[0]]]⟩ [[0]] (by decide)

/-- C6: with two classes and weight vector `[1, 2]`, a single
misclassified example of true class 1 contributes — as its reduction-sum
loss — exactly twice the unweighted cross-entropy loss of the mirrored
misclassified example of true class 0. -/
theorem classWeight_doubles_loss (a b : ℝ) (hmis : b < a) :
    ∃ v : ℝ,
      CrossEntropyLoss.forward (CrossEntropyLoss.init 2 Option.none Red.sum)
          ⟨2, [[b, a]]⟩ [0] Option.none = Except.ok (LossOut.scalar v) ∧
      CrossEntropyLoss.forward (CrossEntropyLoss.init 2 (Option.some [1, 2]) Red.sum)
          ⟨2, [[a, b]]⟩ [1] Option.none = Except.ok (LossOut.scalar (2 * v)) := by
  have hsym : logsumexp [a, b] = logsumexp [b, a] := by
    simp only [logsumexp, List.map_cons, List.map_nil, List.sum_cons, List.sum_nil]
    ring_nf
  refine ⟨logsumexp [b, a] - b, ?_, ?_⟩
  · rw [forward_noMask_nonempty _ _ _ (by simp)]
    have hcrit : (CrossEntropyLoss.init 2 Option.none Red.sum).criterion =
        { weight := Option.none, reduction := Red.sum } := rfl
    rw [hcrit, call_ok { weight := Option.none, reduction := Red.sum } ⟨2, [[b, a]]⟩ [0]
          rfl rfl (by
            intro y hy
            simp only [List.mem_singleton] at hy
            subst hy
            exact Nat.succ_pos 1)]
    congr 1
    simp only [applyReduction, losses, List.zip_cons_cons, List.zip_nil_right,
      List.map_cons, List.map_nil, List.sum_cons, List.sum_nil, perElemLoss, wt,
      List.getD_cons_zero, List.getD_cons_succ]
    ring_nf
  · rw [forward_noMask_nonempty _ _ _ (by simp)]
    have hcrit : (CrossEntropyLoss.init 2 (Option.some [1, 2]) Red.sum).criterion =
        { weight := Option.some [1, 2], reduction := Red.sum } := rfl
    rw [hcrit, call_ok { weight := Option.some [1, 2], reduction := Red.sum }
          ⟨2, [[a, b]]⟩ [1] rfl rfl (by
            intro y hy
            simp only [List.mem_singleton] at hy
            subst hy
            exact Nat.one_lt_two)]
    congr 1
    simp only [applyReduction, losses, List.zip_cons_cons, List.zip_nil_right,
      List.map_cons, List.map_nil, List.sum_cons, List.sum_nil, perElemLoss, wt,
      List.getD_cons_zero, List.getD_cons_succ, hsym]
    ring_nf

/-- Witness for C6 at scores a = 1, b = 0. -/
theorem classWeight_doubles_loss_app :
    ∃ v : ℝ,
      CrossEntropyLoss.forward (CrossEntropyLoss.init 2 Option.none Red.sum)
          ⟨2, [[0, 1]]⟩ [0] Option.none = Except.ok (LossOut.scalar v) ∧
      CrossEntropyLoss.forward (CrossEntropyLoss.init 2 (Option.some [1, 2]) Red.sum)
          ⟨2, [[1, 0]]⟩ [1] Option.none = Except.ok (LossOut.scalar (2 * v)) :=
  classWeight_doubles_loss 1 0 (by norm_num)

/-- C7: construction with a weight vector whose length differs from the
number of classes succeeds and stores the weight as given; the mismatch
surfaces at forward, which fails with the kernel's weight-size error on
every path (with or without mask, empty or non-empty selection). -/
theorem weightMismatch_fails_at_forward (n : ℕ) (red : Red) (w : List ℝ)
    (logits : Tensor2) (labels : List ℕ) (mk : Option Mask)
    (hlen : labels.length = logits.rows.length)
    (hw : w.length ≠ logits.C) :
    (CrossEntropyLoss.init n (Option.some w) red).criterion.weight = Option.some w ∧
    CrossEntropyLoss.forward (CrossEntropyLoss.init n (Option.some w) red)
        logits labels mk = Except.error CEErr.weightSizeMismatch := by
  refine ⟨rfl, ?_⟩
  have hwbad : weightSizeOk (Option.some w) logits.C = false := by
    simp [weightSizeOk, hw]
  have hcall : ∀ rows2 : List (List ℝ), ∀ target : List ℕ,
      target.length = rows2.length →
      NNCrossEntropyLoss.call { weight := Option.some w, reduction := red }
        ⟨logits.C, rows2⟩ target = Except.error CEErr.weightSizeMismatch := by
    intro rows2 target htl
    simp [NNCrossEntropyLoss.call, htl, hwbad]
  have hcrit : (CrossEntropyLoss.init n (Option.some w) red).criterion =
      { weight := Option.some w, reduction := red } := rfl
  have hfb : NNCrossEntropyLoss.call { weight := Option.some w, reduction := red }
      logits (torchArgmax2 logits) = Except.error CEErr.weightSizeMismatch :=
    hcall logits.rows (torchArgmax2 logits) (by simp [torchArgmax2])
  cases mk with
  | none =>
    by_cases hemp : labels = []
    · subst hemp
      rw [forward_noMask_empty, hcrit]
      exact hfb
    · rw [forward_noMask_nonempty _ _ _ hemp, hcrit]
      exact hcall logits.rows labels hlen
  | some msk =>
    by_cases hemp : maskFilter labels (coerceMask msk) = []
    · rw [forward_mask_filterEmpty _ _ _ _ hemp, hcrit]
      exact hfb
    · rw [forward_mask_filterNonempty _ _ _ _ hemp, hcrit]
      exact hcall (maskFilter logits.rows (coerceMask msk))
        (maskFilter labels (coerceMask msk))
        (maskFilter_length_eq labels logits.rows (coerceMask msk) hlen)

/-- Witness for C7 at two classes and a length-3 weight vector. -/
theorem weightMismatch_fails_at_forward_app :
    (CrossEntropyLoss.init 2 (Option.some [1, 1, 1]) Red.mean).criterion.weight =
        Option.some [1, 1, 1] ∧
    CrossEntropyLoss.forward (CrossEntropyLoss.init 2 (Option.some [1, 1, 1]) Red.mean)
        ⟨2, [[0, 0]]⟩ [0] Option.none = Except.error CEErr.weightSizeMismatch :=
  weightMismatch_fails_at_forward 2 Red.mean [1, 1, 1] ⟨2, [[0, 0]]⟩ [0] Option.none
    (by decide) (by decide)

/-- C10: with reduction none, a forward call under a boolean mask with
k > 0 true entries returns a per-element loss tensor with exactly k
entries, one per selected position. -/
theorem reductionNone_masked_length (n : ℕ) (w : Option (List ℝ))
    (logits : Tensor2) (labels : List ℕ) (mask : List Bool)
    (hmem : true ∈ mask)
    (hml : mask.length = labels.length)
    (hll : labels.length = logits.rows.length)
    (hw : weightSizeOk w logits.C = true)
    (hrange : ∀ y ∈ labels, y < logits.C) :
    ∃ vs : List ℝ,
      CrossEntropyLoss.forward (CrossEntropyLoss.init n w Red.none) logits labels
          (Option.some (Mask.boolMask mask)) = Except.ok (LossOut.tensor vs) ∧
      vs.length = mask.count true := by
  have hne : maskFilter labels mask ≠ [] := maskFilter_ne_nil labels mask hml hmem
  have hlf : (maskFilter labels mask).length = (maskFilter logits.rows mask).length :=
    maskFilter_length_eq labels logits.rows mask hll
  have hcrit : (CrossEntropyLoss.init n w Red.none).criterion =
      { weight := w, reduction := Red.none } := rfl
  rw [forward_mask_filterNonempty _ _ _ _ hne, hcrit]
  simp only [coerceMask_bool]
  rw [call_ok { weight := w, reduction := Red.none }
        ⟨logits.C, maskFilter logits.rows mask⟩ (maskFilter labels mask)
        hlf hw (fun y hy => hrange y (mem_maskFilter hy))]
  refine ⟨losses w ⟨logits.C, maskFilter logits.rows mask⟩ (maskFilter labels mask),
    rfl, ?_⟩
  have hcnt : (maskFilter labels mask).length = mask.count true :=
    maskFilter_length_count labels mask hml
  simp only [losses, List.length_map, List.length_zip]
  omega

/-- Witness for C10 at a two-row batch with mask `[true, false]`. -/
theorem reductionNone_masked_length_app :
    ∃ vs : List ℝ,
      CrossEntropyLoss.forward (CrossEntropyLoss.init 2 Option.none Red.none)
          ⟨2, [[0, 0], [0, 0]]⟩ [0, 1] (Option.some (Mask.boolMask [true, false])) =
        Except.ok (LossOut.tensor vs) ∧
      vs.length = ([true, false] : List Bool).count true :=
  reductionNone_masked_length 2 Option.none ⟨2, [[0, 0], [0, 0]]⟩ [0, 1] [true, false]
    (by decide) (by decide) (by decide) rfl (by decide)
